import Mathlib

/-!
Verification of the document-intake bot (src/bot.py) against its
specification.  Python strings are modelled as `List Char`; the JSON
decoder `json.loads` is modelled by an executable recursive-descent
parser; the per-request handler is modelled as a pure function from an
environment of external outcomes to the trace of observable events.
-/

namespace Bot

/-- Python strings are modelled as lists of characters. -/
abbrev Str := List Char

/-- Characters removed by Python `str.strip()` with no argument. -/
def pyIsSpace (c : Char) : Bool :=
  c = ' ' || c = '\t' || c = '\n' || c = '\r' || c = '\x0b' || c = '\x0c'

/-- Left part of Python `str.strip()`. -/
def stripLeft (s : Str) : Str := s.dropWhile pyIsSpace

/-- Right part of Python `str.strip()`. -/
def stripRight (s : Str) : Str := (stripLeft s.reverse).reverse

/-- Model of Python `str.strip()` (no argument). -/
def pyStrip (s : Str) : Str := stripRight (stripLeft s)

/-- The 7-character opening fence token checked at bot.py line 70. -/
def fenceOpen : Str := "```json".toList

/-- The 3-character closing fence token checked at bot.py line 72. -/
def fenceClose : Str := "```".toList

/-- The response post-processing of `analyze_document` (bot.py lines 69-74):
`.strip()` the model output, drop a leading 7-character fence token if
present (`response[7:]`), drop a trailing 3-character fence token if present
(`response[:-3]`), and strip again before decoding. -/
def postprocess (response : Str) : Str :=
  let r0 := pyStrip response
  let r1 := if List.isPrefixOf fenceOpen r0 then r0.drop 7 else r0
  let r2 := if List.isSuffixOf fenceClose r1 then r1.take (r1.length - 3) else r1
  pyStrip r2

/-- JSON values as decoded by Python `json.loads`.  Numbers keep their
validated source lexeme: no claim depends on numeric value rendering. -/
inductive Json where
  | null : Json
  | bool (b : Bool) : Json
  | num (lex : Str) : Json
  | str (s : Str) : Json
  | arr (elems : List Json) : Json
  | obj (kvs : List (Str × Json)) : Json

/-- Insertion into a Python dict rendered as an association list: replace
the value in place when the key exists, append otherwise (Python dicts
keep insertion order and have unique keys). -/
def dictInsert (kvs : List (Str × Json)) (k : Str) (v : Json) : List (Str × Json) :=
  match kvs with
  | [] => [(k, v)]
  | (k', v') :: rest =>
    if k' = k then (k', v) :: rest else (k', v') :: dictInsert rest k v

/-- Key lookup in a Python dict rendered as an association list. -/
def dictFind (kvs : List (Str × Json)) (k : Str) : Option Json :=
  match kvs with
  | [] => none
  | (k', v') :: rest => if k' = k then some v' else dictFind rest k

/-- JSON insignificant whitespace. -/
def jsonWS (c : Char) : Bool := c = ' ' || c = '\t' || c = '\n' || c = '\r'

/-- Skip JSON whitespace. -/
def skipWS (s : Str) : Str := s.dropWhile jsonWS

/-- Value of one hexadecimal digit. -/
def hexVal (c : Char) : Option Nat :=
  if '0' ≤ c ∧ c ≤ '9' then some (c.toNat - '0'.toNat)
  else if 'a' ≤ c ∧ c ≤ 'f' then some (c.toNat - 'a'.toNat + 10)
  else if 'A' ≤ c ∧ c ≤ 'F' then some (c.toNat - 'A'.toNat + 10)
  else none

/-- JSON string body parser (opening quote already consumed): literal
characters, the standard escapes, and `\uXXXX`; raw control characters
are rejected as in Python's strict mode. -/
def pString : Str → Option (Str × Str)
  | [] => none
  | '"' :: rest => some ([], rest)
  | '\\' :: e :: rest =>
    if e = '"' then (pString rest).map (fun p => ('"' :: p.1, p.2))
    else if e = '\\' then (pString rest).map (fun p => ('\\' :: p.1, p.2))
    else if e = '/' then (pString rest).map (fun p => ('/' :: p.1, p.2))
    else if e = 'b' then (pString rest).map (fun p => ('\x08' :: p.1, p.2))
    else if e = 'f' then (pString rest).map (fun p => ('\x0c' :: p.1, p.2))
    else if e = 'n' then (pString rest).map (fun p => ('\n' :: p.1, p.2))
    else if e = 'r' then (pString rest).map (fun p => ('\x0d' :: p.1, p.2))
    else if e = 't' then (pString rest).map (fun p => ('\t' :: p.1, p.2))
    else if e = 'u' then
      match rest with
      | h1 :: h2 :: h3 :: h4 :: rest2 =>
        match hexVal h1, hexVal h2, hexVal h3, hexVal h4 with
        | some a, some b, some c, some d =>
          (pString rest2).map (fun p => (Char.ofNat (((a * 16 + b) * 16 + c) * 16 + d) :: p.1, p.2))
        | _, _, _, _ => none
      | _ => none
    else none
  | c :: rest =>
    if c.toNat < 32 then none
    else (pString rest).map (fun p => (c :: p.1, p.2))

/-- Longest digit run and the remainder. -/
def digitSpan (s : Str) : Str × Str := (s.takeWhile Char.isDigit, s.dropWhile Char.isDigit)

/-- Optional JSON fraction part, returned as lexeme characters. -/
def pFrac (s : Str) : Option (Str × Str) :=
  match s with
  | '.' :: r =>
    match digitSpan r with
    | ([], _) => none
    | (ds, r') => some ('.' :: ds, r')
  | _ => some ([], s)

/-- Optional JSON exponent part, returned as lexeme characters. -/
def pExp (s : Str) : Option (Str × Str) :=
  match s with
  | c :: r =>
    if c = 'e' ∨ c = 'E' then
      let (sgn, r1) :=
        match r with
        | '+' :: r2 => (['+'], r2)
        | '-' :: r2 => (['-'], r2)
        | _ => (([] : Str), r)
      match digitSpan r1 with
      | ([], _) => none
      | (ds, r2) => some (c :: (sgn ++ ds), r2)
    else some ([], c :: r)
  | [] => some ([], [])

/-- JSON number parser following the RFC grammar used by Python
(`-? int frac? exp?`, no leading zeros). -/
def pNumber (s : Str) : Option (Str × Str) :=
  let (neg, s1) :=
    match s with
    | '-' :: r => ((['-'] : Str), r)
    | _ => (([] : Str), s)
  match s1 with
  | [] => none
  | c :: r =>
    if c = '0' then
      match pFrac r with
      | none => none
      | some (fr, r1) =>
        match pExp r1 with
        | none => none
        | some (ex, r2) => some (neg ++ '0' :: (fr ++ ex), r2)
    else if c.isDigit then
      let (ds, r0) := digitSpan r
      match pFrac r0 with
      | none => none
      | some (fr, r1) =>
        match pExp r1 with
        | none => none
        | some (ex, r2) => some (neg ++ c :: (ds ++ fr ++ ex), r2)
    else none

mutual

/-- Fuel-indexed JSON value parser modelling Python `json.loads`
(objects, arrays, strings, numbers, literals, and the Python-accepted
constants `NaN`, `Infinity`, `-Infinity`). -/
def pValue : Nat → Str → Option (Json × Str)
  | 0, _ => none
  | Nat.succ fuel, s =>
    match skipWS s with
    | [] => none
    | c :: r =>
      if c = 'n' then
        match r with
        | 'u' :: 'l' :: 'l' :: r' => some (.null, r')
        | _ => none
      else if c = 't' then
        match r with
        | 'r' :: 'u' :: 'e' :: r' => some (.bool true, r')
        | _ => none
      else if c = 'f' then
        match r with
        | 'a' :: 'l' :: 's' :: 'e' :: r' => some (.bool false, r')
        | _ => none
      else if c = 'N' then
        match r with
        | 'a' :: 'N' :: r' => some (.num ("NaN".toList), r')
        | _ => none
      else if c = 'I' then
        match r with
        | 'n' :: 'f' :: 'i' :: 'n' :: 'i' :: 't' :: 'y' :: r' =>
          some (.num ("Infinity".toList), r')
        | _ => none
      else if c = '"' then
        match pString r with
        | some (str, r') => some (.str str, r')
        | none => none
      else if c = '[' then
        match skipWS r with
        | ']' :: r' => some (.arr [], r')
        | _ => pElems fuel r []
      else if c = '\x7b' then
        match skipWS r with
        | '\x7d' :: r' => some (.obj [], r')
        | _ => pMembers fuel r []
      else if c = '-' then
        match r with
        | 'I' :: 'n' :: 'f' :: 'i' :: 'n' :: 'i' :: 't' :: 'y' :: r' =>
          some (.num ("-Infinity".toList), r')
        | _ =>
          match pNumber (c :: r) with
          | some (lex, r') => some (.num lex, r')
          | none => none
      else if c.isDigit then
        match pNumber (c :: r) with
        | some (lex, r') => some (.num lex, r')
        | none => none
      else none

/-- Comma-separated array elements up to the closing bracket. -/
def pElems : Nat → Str → List Json → Option (Json × Str)
  | 0, _, _ => none
  | Nat.succ fuel, s, acc =>
    match pValue fuel s with
    | none => none
    | some (v, r) =>
      match skipWS r with
      | ',' :: r' => pElems fuel r' (acc ++ [v])
      | ']' :: r' => some (.arr (acc ++ [v]), r')
      | _ => none

/-- Comma-separated object members up to the closing brace; duplicate
keys collapse with the last occurrence winning, as in Python dicts. -/
def pMembers : Nat → Str → List (Str × Json) → Option (Json × Str)
  | 0, _, _ => none
  | Nat.succ fuel, s, acc =>
    match skipWS s with
    | '"' :: r =>
      match pString r with
      | none => none
      | some (k, r1) =>
        match skipWS r1 with
        | ':' :: r2 =>
          match pValue fuel r2 with
          | none => none
          | some (v, r3) =>
            match skipWS r3 with
            | ',' :: r4 => pMembers fuel r4 (dictInsert acc k v)
            | '\x7d' :: r4 => some (.obj (dictInsert acc k v), r4)
            | _ => none
        | _ => none
    | _ => none

end

/-- Model of Python `json.loads`: decode one JSON value and require the
remainder to be whitespace.  The fuel `2 * length + 4` dominates the
recursion depth, since every two nested parser calls consume a
character. -/
def json_loads (s : Str) : Option Json :=
  match pValue (2 * s.length + 4) s with
  | some (v, rest) => if skipWS rest = [] then some v else none
  | none => none


/-- Characters a successfully decoded JSON value can end on. -/
def jsonEndChar (c : Char) : Bool :=
  c = 'l' || c = 'e' || c = '"' || c = ']' || c = '\x7d' || c = 'N' || c = 'y' || c.isDigit

/-- A list that ends in a decimal digit. -/
def EndsD (l : Str) : Prop := ∃ u d, l = u ++ [d] ∧ d.isDigit = true

/-- Python `dict.get(k, default)` on a decoded JSON value; any other
receiver raises `AttributeError` (abstracted to a fixed message). -/
def pyGet (v : Json) (k : Str) (dflt : Json) : Except Str Json :=
  match v with
  | .obj kvs => .ok ((dictFind kvs k).getD dflt)
  | _ => .error ("AttributeError".toList)

/-- Python dict item assignment `d[k] = x`; any other receiver raises
`TypeError` (abstracted to a fixed message). -/
def pySet (v : Json) (k : Str) (x : Json) : Except Str Json :=
  match v with
  | .obj kvs => .ok (.obj (dictInsert kvs k x))
  | _ => .error ("TypeError".toList)

mutual

/-- Python `repr` of a decoded JSON value, used for values nested in
containers.  Container rendering is approximate (no quote escaping);
the claims only ever render strings and the dash placeholder. -/
def pyRepr : Json → Str
  | .null => "None".toList
  | .bool true => "True".toList
  | .bool false => "False".toList
  | .num lex => lex
  | .str s => '\x27' :: (s ++ ['\x27'])
  | .arr xs => '[' :: (pyReprList xs ++ [']'])
  | .obj kvs => '\x7b' :: (pyReprKvs kvs ++ ['\x7d'])

/-- Comma-separated reprs of list elements. -/
def pyReprList : List Json → Str
  | [] => []
  | [x] => pyRepr x
  | x :: y :: xs => pyRepr x ++ ',' :: ' ' :: pyReprList (y :: xs)

/-- Comma-separated reprs of dict entries. -/
def pyReprKvs : List (Str × Json) → Str
  | [] => []
  | [(k, v)] => '\x27' :: (k ++ '\x27' :: ':' :: ' ' :: pyRepr v)
  | (k, v) :: m :: kvs =>
    ('\x27' :: (k ++ '\x27' :: ':' :: ' ' :: pyRepr v)) ++ ',' :: ' ' :: pyReprKvs (m :: kvs)

end

/-- Python `str()` of a decoded JSON value, as used by f-string
interpolation in the reply template. -/
def pyStr : Json → Str
  | .str s => s
  | v => pyRepr v

/-- Message literals sent by the bot (bot.py lines 112, 115, 132, 150)
and the error-reply template of line 153. -/
def msgReject : Str := "Пожалуйста, отправь PDF-файл.".toList

/-- Progress message sent after the attachment type check (line 115). -/
def msgReceiving : Str := "📥 Получаю файл...".toList

/-- Progress message sent before the model call (line 132). -/
def msgAnalyzing : Str := "🧠 Анализирую документ...".toList

/-- Confirmation message sent after `write_to_sheet` returns (line 150). -/
def msgSaved : Str := "📤 Результат сохранён в Google Таблицу!".toList

/-- Prefix of the error reply `f"❌ Ошибка: {str(e)}"` (line 153). -/
def errReplyPre : Str := "❌ Ошибка: ".toList

/-- Message of the `EnvironmentError` raised by `get_google_creds`
(line 34) when `GOOGLE_CREDENTIALS_B64` is unset or empty. -/
def msgCredsMissing : Str := "GOOGLE_CREDENTIALS_B64 не задан!".toList

/-- Prefix of the log line `f"Ошибка записи в таблицу: {e}"` (line 99). -/
def logWritePre : Str := "Ошибка записи в таблицу: ".toList

/-- Message standing for `str(e)` of a `json.JSONDecodeError`; the exact
position-dependent text is abstracted to a fixed token. -/
def jsonErrMsg : Str := "JSONDecodeError".toList

/-- Russian JSON keys used by the schema (bot.py lines 53-63, 81-91). -/
def keyFile : Str := "файл".toList

/-- Key of the document-type field. -/
def keyType : Str := "тип".toList

/-- Key of the person-name field. -/
def keyName : Str := "имя".toList

/-- Key of the nested facts object. -/
def keyFacts : Str := "факты".toList

/-- Key of the role fact. -/
def keyRole : Str := "должность".toList

/-- Key of the city fact. -/
def keyCity : Str := "город".toList

/-- Key of the date fact. -/
def keyDate : Str := "дата".toList

/-- Key of the organization fact. -/
def keyOrg : Str := "организация".toList

/-- Key of the summary field. -/
def keySummary : Str := "резюме".toList

/-- Expected MIME type of the attachment (bot.py line 111). -/
def pdfMime : Str := "application/pdf".toList

/-- Outcomes of the external collaborators for one request: the chat
download, the PDF text extraction, the model completion (content of
`llm.invoke(prompt)` already as a string), the `GOOGLE_CREDENTIALS_B64`
variable, the credential decode, and the spreadsheet append call. -/
structure Env where
  downloadResult : Except Str Unit
  extractResult : Except Str Str
  llmResponse : Except Str Str
  googleCredsB64 : Option Str
  credsDecode : Except Str Unit
  appendResult : Except Str Unit

/-- The fields of the incoming Telegram document used by the handler. -/
structure DocMsg where
  mimeType : Str
  fileName : Str

/-- Observable events of one request: replies to the user, the file
download, creation and deletion of the temporary PDF file, the text
extraction, the model invocation, a successful spreadsheet append, and
a console log line. -/
inductive Ev where
  | reply (msg : Str) : Ev
  | download : Ev
  | tmpCreate : Ev
  | extract : Ev
  | llm : Ev
  | appendRow (row : List Json) : Ev
  | log (msg : Str) : Ev
  | tmpDelete : Ev

/-- The dash placeholder default of the reply template (lines 137-143). -/
def dashJ : Json := .str ['-']

/-- The empty-string default of the sheet row (lines 83-90). -/
def emptyJ : Json := .str []

/-- Model of `get_google_creds` (bot.py lines 31-40): raise
`EnvironmentError` when the variable is unset or empty (Python
`if not b64_str`), otherwise the outcome of decoding and building the
credentials is taken from the environment. -/
def get_google_creds (env : Env) : Except Str Unit :=
  match env.googleCredsB64 with
  | none => .error msgCredsMissing
  | some b64 => if b64 = [] then .error msgCredsMissing else env.credsDecode

/-- Model of `analyze_document` (bot.py lines 43-74): the model is an
external oracle, so its completion for the constructed prompt is the
`llmOutcome` argument; the code then strips fences and whitespace and
decodes the result with `json.loads`, with no schema validation. -/
def analyze_document (llmOutcome : Except Str Str) (_text : Str) : Except Str Json :=
  match llmOutcome with
  | .error e => .error e
  | .ok content =>
    match json_loads (postprocess content) with
    | some v => .ok v
    | none => .error jsonErrMsg

/-- The row projection inside `write_to_sheet` (bot.py lines 81-91):
`facts = data.get("факты", {})` followed by the fixed 8-cell list. -/
def sheetRow (data : Json) : Except Str (List Json) := do
  let facts ← pyGet data keyFacts (.obj [])
  let c0 ← pyGet data keyFile emptyJ
  let c1 ← pyGet data keyType emptyJ
  let c2 ← pyGet data keyName emptyJ
  let c3 ← pyGet facts keyRole emptyJ
  let c4 ← pyGet facts keyCity emptyJ
  let c5 ← pyGet facts keyDate emptyJ
  let c6 ← pyGet facts keyOrg emptyJ
  let c7 ← pyGet data keySummary emptyJ
  pure [c0, c1, c2, c3, c4, c5, c6, c7]

/-- Model of `write_to_sheet` (bot.py lines 77-99): everything runs in a
`try` whose `except` only prints; credential lookup, row projection and
the append call can fail, a successful append emits the row event. -/
def write_to_sheet (env : Env) (data : Json) : List Ev :=
  match get_google_creds env with
  | .error e => [.log (logWritePre ++ e)]
  | .ok _ =>
    match sheetRow data with
    | .error e => [.log (logWritePre ++ e)]
    | .ok row =>
      match env.appendResult with
      | .error e => [.log (logWritePre ++ e)]
      | .ok _ => [.appendRow row]

/-- The reply template of bot.py lines 136-144 as a function of the
seven rendered field values. -/
def mkSummary (t n r c d o su : Str) : Str :=
  "✅ **Тип**: ".toList ++ t ++ "\n👤 **Имя**: ".toList ++ n ++
  "\n💼 **Должность**: ".toList ++ r ++ "\n🏙️ **Город**: ".toList ++ c ++
  "\n📅 **Дата**: ".toList ++ d ++ "\n🏢 **Организация**: ".toList ++ o ++
  "\n\n📝 **Резюме**: ".toList ++ su

/-- The reply construction of bot.py lines 136-144: seven
`result.get(..., '-')` lookups (three through `result.get('факты', {})`)
interpolated into the fixed template; a non-dict receiver raises. -/
def formatResponse (result : Json) : Except Str Str := do
  let t ← pyGet result keyType dashJ
  let n ← pyGet result keyName dashJ
  let facts0 ← pyGet result keyFacts (.obj [])
  let r ← pyGet facts0 keyRole dashJ
  let c ← pyGet facts0 keyCity dashJ
  let d ← pyGet facts0 keyDate dashJ
  let o ← pyGet facts0 keyOrg dashJ
  let su ← pyGet result keySummary dashJ
  pure (mkSummary (pyStr t) (pyStr n) (pyStr r) (pyStr c) (pyStr d) (pyStr o) (pyStr su))

/-- Model of `handle_document` (bot.py lines 109-156) as the trace of
observable events: the MIME check, the progress replies, the
try/except/finally structure with the single error reply
`f"❌ Ошибка: {e}"`, and the `finally` unlink that runs exactly when
`tmp_path` was bound. -/
def handle_document (env : Env) (doc : DocMsg) : List Ev :=
  if doc.mimeType ≠ pdfMime then [.reply msgReject]
  else
    .reply msgReceiving ::
    (match env.downloadResult with
     | .error e => [.reply (errReplyPre ++ e)]
     | .ok _ =>
       .download :: .tmpCreate ::
       (match env.extractResult with
        | .error e => [.reply (errReplyPre ++ e), .tmpDelete]
        | .ok fullText =>
          .extract :: .reply msgAnalyzing ::
          (match env.llmResponse with
           | .error e => [.llm, .reply (errReplyPre ++ e), .tmpDelete]
           | .ok content =>
             .llm ::
             (match analyze_document (.ok content) fullText with
              | .error e => [.reply (errReplyPre ++ e), .tmpDelete]
              | .ok result =>
                match formatResponse result with
                | .error e => [.reply (errReplyPre ++ e), .tmpDelete]
                | .ok msg =>
                  .reply msg ::
                  (match pySet result keyFile (.str doc.fileName) with
                   | .error e => [.reply (errReplyPre ++ e), .tmpDelete]
                   | .ok result2 =>
                     write_to_sheet env result2 ++ [.reply msgSaved, .tmpDelete])))))

/-- The AnalysisRecord of the spec data model (§3): every field
optional, the four facts nested under a facts mapping. -/
structure AnalysisRecord where
  fileName : Option Str
  documentType : Option Str
  personName : Option Str
  role : Option Str
  city : Option Str
  date : Option Str
  organization : Option Str
  summary : Option Str

/-- Dict entry for one optional field. -/
def optEntry (k : Str) (v : Option Str) : List (Str × Json) :=
  match v with
  | none => []
  | some s => [(k, .str s)]

/-- The facts sub-dict of a record: only the present facts appear. -/
def factsEntries (r : AnalysisRecord) : List (Str × Json) :=
  optEntry keyRole r.role ++ optEntry keyCity r.city ++
  optEntry keyDate r.date ++ optEntry keyOrg r.organization

/-- The entry list of the dict corresponding to a record: present
fields only, with the facts object absent when no fact is present. -/
def recordEntries (r : AnalysisRecord) : List (Str × Json) :=
  optEntry keyFile r.fileName ++ optEntry keyType r.documentType ++
  optEntry keyName r.personName ++
  (if (factsEntries r).isEmpty then [] else [(keyFacts, .obj (factsEntries r))]) ++
  optEntry keySummary r.summary

/-- The decoded JSON dict corresponding to a record. -/
def recordToJson (r : AnalysisRecord) : Json := .obj (recordEntries r)

/-- Modelled from the spec (§3 SheetRow, §4.3 Row Projector): exactly 8
string cells in the fixed order [fileName, documentType, personName,
role, city, date, organization, summary], a missing field rendered as
the empty string at its position. -/
def specProjectRow (r : AnalysisRecord) : List Str :=
  [r.fileName.getD [], r.documentType.getD [], r.personName.getD [],
   r.role.getD [], r.city.getD [], r.date.getD [], r.organization.getD [],
   r.summary.getD []]

/-- Modelled from the spec (§4.4 Presentation Formatter): a present
field renders as its literal value, an absent field as the dash. -/
def specDisplay (v : Option Str) : Str := v.getD ['-']

/-- The summary message the spec expects for a record: the fixed layout
filled with the display value of each of the seven fields. -/
def specSummary (r : AnalysisRecord) : Str :=
  mkSummary (specDisplay r.documentType) (specDisplay r.personName)
    (specDisplay r.role) (specDisplay r.city) (specDisplay r.date)
    (specDisplay r.organization) (specDisplay r.summary)

/-- Test predicate for the cleanup event. -/
def isTmpDelete : Ev → Bool
  | .tmpDelete => true
  | _ => false

/-- A PDF document message used as concrete input. -/
def docPdf : DocMsg := ⟨pdfMime, "f.pdf".toList⟩

/-- A non-PDF document message used as concrete input. -/
def docTxt : DocMsg := ⟨"text/plain".toList, "f.txt".toList⟩

/-- Environment in which everything succeeds. -/
def envAllOk : Env :=
  ⟨.ok (), .ok ("Hello".toList), .ok ("\x7b\"тип\": \"письмо\"\x7d".toList),
   some ("abc".toList), .ok (), .ok ()⟩

/-- Environment in which the model returns unparseable free text. -/
def envParseFail : Env :=
  ⟨.ok (), .ok ("Hello".toList), .ok ("Вот ваш JSON: нет".toList),
   some ("abc".toList), .ok (), .ok ()⟩

/-- Environment in which `GOOGLE_CREDENTIALS_B64` is unset. -/
def envNoCreds : Env :=
  ⟨.ok (), .ok ("Hello".toList), .ok ("\x7b\"тип\": \"письмо\"\x7d".toList),
   none, .ok (), .ok ()⟩

/-- Environment in which the spreadsheet append call raises. -/
def envAppendFail : Env :=
  ⟨.ok (), .ok ("Hello".toList), .ok ("\x7b\"тип\": \"письмо\", \"резюме\": \"ok\"\x7d".toList),
   some ("abc".toList), .ok (), .error ("HttpError 500".toList)⟩

example : json_loads ("true".toList) = some (.bool true) := rfl
example : json_loads (" [1, 2]".toList) = some (.arr [.num ['1'], .num ['2']]) := rfl
example : json_loads ("not json".toList) = none := rfl
example : json_loads ("\x7b\"a\": \"b\"\x7d".toList) = some (.obj [("a".toList, .str ("b".toList))]) := rfl

theorem stripLeft_idem (s : Str) : stripLeft (stripLeft s) = stripLeft s := by
  unfold stripLeft
  cases h : s.dropWhile pyIsSpace with
  | nil => simp
  | cons a t =>
    have hh := List.head?_dropWhile_not pyIsSpace s
    rw [h] at hh
    simp at hh
    rw [List.dropWhile_cons_of_neg (by simp [hh])]

theorem stripRight_isPrefix (u : Str) : stripRight u <+: u := by
  have h : (u.reverse.dropWhile pyIsSpace) <:+ u.reverse := List.dropWhile_suffix pyIsSpace
  have h2 : (u.reverse.dropWhile pyIsSpace).reverse <+: u.reverse.reverse :=
    List.reverse_prefix.mpr h
  simpa [stripRight, stripLeft] using h2

theorem head_not_space_of_stripLeft_eq (u : Str) (h : stripLeft u = u) :
    ∀ a t, u = a :: t → pyIsSpace a = false := by
  intro a t he
  subst he
  by_cases hp : pyIsSpace a = true
  · exfalso
    unfold stripLeft at h
    rw [List.dropWhile_cons_of_pos hp] at h
    have hlen : (t.dropWhile pyIsSpace).length ≤ t.length :=
      (List.dropWhile_sublist pyIsSpace).length_le
    rw [h] at hlen
    simp at hlen
  · simpa using hp

theorem stripLeft_stripRight (u : Str) (h : stripLeft u = u) :
    stripLeft (stripRight u) = stripRight u := by
  cases hr : stripRight u with
  | nil => rfl
  | cons a t =>
    obtain ⟨w, hw⟩ := stripRight_isPrefix u
    rw [hr] at hw
    have ha : pyIsSpace a = false :=
      head_not_space_of_stripLeft_eq u h a (t ++ w) (by rw [← hw]; simp)
    unfold stripLeft
    rw [List.dropWhile_cons_of_neg (by simp [ha])]

theorem stripRight_idem (u : Str) : stripRight (stripRight u) = stripRight u := by
  unfold stripRight
  rw [List.reverse_reverse, stripLeft_idem]

theorem pyStrip_idem (s : Str) : pyStrip (pyStrip s) = pyStrip s := by
  unfold pyStrip
  rw [stripLeft_stripRight _ (stripLeft_idem s), stripRight_idem]

theorem pyStrip_eq_self (c d : Char) (l : Str) (hc : pyIsSpace c = false)
    (hd : pyIsSpace d = false) : pyStrip (c :: (l ++ [d])) = c :: (l ++ [d]) := by
  have hsl : stripLeft (c :: (l ++ [d])) = c :: (l ++ [d]) := by
    unfold stripLeft
    rw [List.dropWhile_cons_of_neg (by simp [hc])]
  have hsr : stripRight (c :: (l ++ [d])) = c :: (l ++ [d]) := by
    unfold stripRight stripLeft
    rw [show (c :: (l ++ [d])).reverse = d :: ((c :: l).reverse) from by simp]
    rw [List.dropWhile_cons_of_neg (by simp [hd])]
    simp
  unfold pyStrip
  rw [hsl, hsr]

theorem isPrefixOf_append_self (l x : Str) : List.isPrefixOf l (l ++ x) = true := by
  induction l with
  | nil => simp [List.isPrefixOf]
  | cons c t ih => simp [List.isPrefixOf, ih]

theorem isSuffixOf_append_self (l x : Str) : List.isSuffixOf l (x ++ l) = true := by
  unfold List.isSuffixOf
  rw [List.reverse_append]
  exact isPrefixOf_append_self _ _

theorem postprocess_wrap (p : Str)
    (h1 : List.isPrefixOf fenceOpen (pyStrip p) = false)
    (h2 : List.isSuffixOf fenceClose (pyStrip p) = false) :
    postprocess (fenceOpen ++ p ++ fenceClose) = postprocess p := by
  have hshape : fenceOpen ++ p ++ fenceClose =
      '\x60' :: (("\x60\x60json".toList ++ p ++ "\x60\x60".toList) ++ ['\x60']) := by
    have e1 : fenceOpen = '\x60' :: "\x60\x60json".toList := rfl
    have e2 : fenceClose = "\x60\x60".toList ++ ['\x60'] := rfl
    rw [e1, e2]
    simp [List.append_assoc]
  have hw : pyStrip (fenceOpen ++ p ++ fenceClose) = fenceOpen ++ p ++ fenceClose := by
    rw [hshape]
    exact pyStrip_eq_self _ _ _ (by decide) (by decide)
  have hassoc : fenceOpen ++ p ++ fenceClose = fenceOpen ++ (p ++ fenceClose) :=
    List.append_assoc _ _ _
  have hpre : List.isPrefixOf fenceOpen (fenceOpen ++ p ++ fenceClose) = true := by
    rw [hassoc]; exact isPrefixOf_append_self _ _
  have hdrop : (fenceOpen ++ p ++ fenceClose).drop 7 = p ++ fenceClose := by
    rw [hassoc]; exact List.drop_left' rfl
  have hsuf : List.isSuffixOf fenceClose (p ++ fenceClose) = true :=
    isSuffixOf_append_self _ _
  have hlen : (p ++ fenceClose).length - 3 = p.length := by
    simp [List.length_append, fenceClose]
  have htake : (p ++ fenceClose).take ((p ++ fenceClose).length - 3) = p := by
    rw [hlen]; exact List.take_left' rfl
  have hL : postprocess (fenceOpen ++ p ++ fenceClose) = pyStrip p := by
    unfold postprocess
    simp only [hw, hpre, if_true, hdrop, hsuf, htake]
  have hR : postprocess p = pyStrip p := by
    unfold postprocess
    simp only [h1, h2, Bool.false_eq_true, if_false, pyStrip_idem]
  rw [hL, hR]

theorem pString_ends : ∀ (n : Nat) (r : Str), r.length ≤ n → ∀ s2 rest,
    pString r = some (s2, rest) → ∃ u, r = u ++ '"' :: rest := by
  intro n
  induction n with
  | zero =>
    intro r hr s2 rest h
    have : r = [] := List.eq_nil_of_length_eq_zero (Nat.le_zero.mp hr)
    subst this
    have hn : pString ([] : Str) = none := rfl
    rw [hn] at h
    exact absurd h (by simp)
  | succ n ih =>
    intro r hr s2 rest h
    rw [pString.eq_def] at h
    split at h
    · exact absurd h (by simp)
    · rename_i tail
      simp only [Option.some.injEq, Prod.mk.injEq] at h
      obtain ⟨h1, h2⟩ := h
      subst h2
      exact ⟨[], rfl⟩
    · rename_i e tail
      have hlen : tail.length ≤ n := by
        simp only [List.length_cons] at hr
        omega
      split_ifs at h
      any_goals
        obtain ⟨⟨s3, r3⟩, hp, hfe⟩ := Option.map_eq_some'.mp h
        injection hfe with hfe1 hfe2
        obtain ⟨u, hu⟩ := ih tail hlen s3 r3 hp
        rw [← hfe2]
        exact ⟨'\\' :: e :: u, by rw [hu]; simp⟩
      · -- unicode escape
        split at h
        · rename_i h1c h2c h3c h4c rest2
          split at h
          · obtain ⟨⟨s3, r3⟩, hp, hfe⟩ := Option.map_eq_some'.mp h
            injection hfe with hfe1 hfe2
            have hlen2 : rest2.length ≤ n := by
              simp only [List.length_cons] at hr hlen ⊢
              omega
            obtain ⟨u, hu⟩ := ih rest2 hlen2 s3 r3 hp
            rw [← hfe2]
            refine ⟨'\\' :: e :: h1c :: h2c :: h3c :: h4c :: u, ?_⟩
            rw [hu]
            simp
          · exact absurd h (by simp)
        · exact absurd h (by simp)
    · rename_i c tail hq hb
      split_ifs at h
      obtain ⟨⟨s3, r3⟩, hp, hfe⟩ := Option.map_eq_some'.mp h
      injection hfe with hfe1 hfe2
      have hlen : tail.length ≤ n := by
        simp only [List.length_cons] at hr
        omega
      obtain ⟨u, hu⟩ := ih tail hlen s3 r3 hp
      rw [← hfe2]
      exact ⟨c :: u, by rw [hu]; simp⟩

theorem endsD_append (A B : Str) (h : EndsD B) : EndsD (A ++ B) := by
  obtain ⟨u, d, rfl, hd⟩ := h
  exact ⟨A ++ u, d, by simp, hd⟩

theorem endsD_opt (A B : Str) (hA : EndsD A) (hB : B = [] ∨ EndsD B) :
    EndsD (A ++ B) := by
  rcases hB with rfl | hB
  · simpa using hA
  · exact endsD_append A B hB

theorem takeWhile_digits_opt (r : Str) :
    r.takeWhile Char.isDigit = [] ∨ EndsD (r.takeWhile Char.isDigit) := by
  cases h : r.takeWhile Char.isDigit with
  | nil => exact .inl rfl
  | cons a t =>
    right
    have hne : (a :: t) ≠ [] := by simp
    refine ⟨(a :: t).dropLast, (a :: t).getLast hne, ?_, ?_⟩
    · exact (List.dropLast_append_getLast hne).symm
    · have hall : ∀ x ∈ a :: t, x.isDigit = true := fun x hx =>
        List.mem_takeWhile_imp (by rw [h]; exact hx)
      exact hall _ (List.getLast_mem hne)

theorem pFrac_shape (s fr rest : Str) (h : pFrac s = some (fr, rest)) :
    s = fr ++ rest ∧ (fr = [] ∨ EndsD fr) := by
  rw [pFrac.eq_def] at h
  split at h
  · rename_i r
    simp only [digitSpan] at h
    split at h
    · exact absurd h (by simp)
    · rename_i xx ds r2 hcond heq
      injection heq with heq1 heq2
      simp only [Option.some.injEq, Prod.mk.injEq] at h
      obtain ⟨rfl, rfl⟩ := h
      constructor
      · have hr : r = ds ++ r2 := by
          rw [← heq1, ← heq2]
          exact (List.takeWhile_append_dropWhile _ _).symm
        rw [hr]
        simp
      · right
        have hd := takeWhile_digits_opt r
        rw [heq1] at hd
        rcases hd with h0 | hE
        · exact absurd h0 hcond
        · exact endsD_append ['.'] ds hE
  · simp only [Option.some.injEq, Prod.mk.injEq] at h
    obtain ⟨rfl, rfl⟩ := h
    exact ⟨by simp, .inl rfl⟩

theorem pExp_shape (s ex rest : Str) (h : pExp s = some (ex, rest)) :
    s = ex ++ rest ∧ (ex = [] ∨ EndsD ex) := by
  rw [pExp.eq_def] at h
  split at h
  · rename_i c r
    split_ifs at h with hce
    · simp only [digitSpan] at h
      split at h
      · exact absurd h (by simp)
      · rename_i xx ds r2 hcond heq
        simp only [Option.some.injEq, Prod.mk.injEq] at h
        obtain ⟨rfl, rfl⟩ := h
        split at heq
        · rename_i r0 r3
          injection heq with htw hdw
          constructor
          · have hr1 : r3 = ds ++ r2 := by
              rw [← htw, ← hdw]
              exact (List.takeWhile_append_dropWhile _ _).symm
            simp [hr1]
          · right
            have hd := takeWhile_digits_opt r3
            rw [htw] at hd
            rcases hd with h0 | hE
            · exact absurd h0 hcond
            · exact endsD_append (c :: (['+'] : Str)) ds hE
        · rename_i r0 r3
          injection heq with htw hdw
          constructor
          · have hr1 : r3 = ds ++ r2 := by
              rw [← htw, ← hdw]
              exact (List.takeWhile_append_dropWhile _ _).symm
            simp [hr1]
          · right
            have hd := takeWhile_digits_opt r3
            rw [htw] at hd
            rcases hd with h0 | hE
            · exact absurd h0 hcond
            · exact endsD_append (c :: (['-'] : Str)) ds hE
        · rename_i r0 hn1 hn2
          injection heq with htw hdw
          constructor
          · have hr1 : r = ds ++ r2 := by
              rw [← htw, ← hdw]
              exact (List.takeWhile_append_dropWhile _ _).symm
            simp [hr1]
          · right
            have hd := takeWhile_digits_opt r
            rw [htw] at hd
            rcases hd with h0 | hE
            · exact absurd h0 hcond
            · exact endsD_append (c :: ([] : Str)) ds hE
    · simp only [Option.some.injEq, Prod.mk.injEq] at h
      obtain ⟨rfl, rfl⟩ := h
      exact ⟨by simp, .inl rfl⟩
  · simp only [Option.some.injEq, Prod.mk.injEq] at h
    obtain ⟨rfl, rfl⟩ := h
    exact ⟨by simp, .inl rfl⟩

theorem pNumber_ends (s lex rest : Str) (h : pNumber s = some (lex, rest)) :
    s = lex ++ rest ∧ EndsD lex := by
  rw [pNumber.eq_def] at h
  split at h
  rename_i x0 sgn s1 heq0
  split at h
  · exact absurd h (by simp)
  · rename_i c r
    split_ifs at h with h0 hdg
    · split at h
      · exact absurd h (by simp)
      · rename_i fr r1 hpf
        split at h
        · exact absurd h (by simp)
        · rename_i ex r2 hpe
          simp only [Option.some.injEq, Prod.mk.injEq] at h
          obtain ⟨rfl, rfl⟩ := h
          obtain ⟨hfr, hfrE⟩ := pFrac_shape r fr r1 hpf
          obtain ⟨hex, hexE⟩ := pExp_shape r1 ex r2 hpe
          have hX : EndsD ('0' :: (fr ++ ex)) := by
            have h1 : EndsD ((['0'] : Str) ++ fr) :=
              endsD_opt _ _ ⟨[], '0', rfl, by decide⟩ hfrE
            have h2 : EndsD (((['0'] : Str) ++ fr) ++ ex) := endsD_opt _ _ h1 hexE
            simpa [List.append_assoc] using h2
          split at heq0
          · rename_i r3
            injection heq0 with hsg hr3
            subst hsg
            subst hr3
            constructor
            · simp [h0, hfr, hex]
            · exact endsD_append _ _ hX
          · rename_i hn
            injection heq0 with hsg hs
            subst hsg
            subst hs
            constructor
            · simp [h0, hfr, hex]
            · exact endsD_append _ _ hX
    · simp only [digitSpan] at h
      obtain ⟨tw, htw⟩ : ∃ tw, r.takeWhile Char.isDigit = tw := ⟨_, rfl⟩
      obtain ⟨dw, hdw⟩ : ∃ dw, r.dropWhile Char.isDigit = dw := ⟨_, rfl⟩
      rw [htw, hdw] at h
      have hrsplit : r = tw ++ dw := by
        rw [← htw, ← hdw]
        exact (List.takeWhile_append_dropWhile _ _).symm
      have hTW : tw = [] ∨ EndsD tw := htw ▸ takeWhile_digits_opt r
      split at h
      · exact absurd h (by simp)
      · rename_i fr r1 hpf
        split at h
        · exact absurd h (by simp)
        · rename_i ex r2 hpe
          simp only [Option.some.injEq, Prod.mk.injEq] at h
          obtain ⟨rfl, rfl⟩ := h
          obtain ⟨hfr, hfrE⟩ := pFrac_shape dw fr r1 hpf
          obtain ⟨hex, hexE⟩ := pExp_shape r1 ex r2 hpe
          have hX : EndsD (c :: (tw ++ fr ++ ex)) := by
            have h1 : EndsD (([c] : Str) ++ tw) := endsD_opt _ _ ⟨[], c, rfl, hdg⟩ hTW
            have h2 : EndsD ((([c] : Str) ++ tw) ++ fr) := endsD_opt _ _ h1 hfrE
            have h3 : EndsD (((([c] : Str) ++ tw) ++ fr) ++ ex) := endsD_opt _ _ h2 hexE
            simpa [List.append_assoc] using h3
          split at heq0
          · rename_i r3
            injection heq0 with hsg hr3
            subst hsg
            subst hr3
            constructor
            · simp [hrsplit, hfr, hex]
            · exact endsD_append _ _ hX
          · rename_i hn
            injection heq0 with hsg hs
            subst hsg
            subst hs
            constructor
            · simp [hrsplit, hfr, hex]
            · exact endsD_append _ _ hX

set_option maxHeartbeats 2000000 in
theorem parser_ends : ∀ fuel : Nat,
    (∀ s v rest, pValue fuel s = some (v, rest) →
      ∃ u c, s = u ++ c :: rest ∧ jsonEndChar c = true) ∧
    (∀ s acc v rest, pElems fuel s acc = some (v, rest) →
      ∃ u c, s = u ++ c :: rest ∧ jsonEndChar c = true) ∧
    (∀ s acc v rest, pMembers fuel s acc = some (v, rest) →
      ∃ u c, s = u ++ c :: rest ∧ jsonEndChar c = true) := by
  intro fuel
  induction fuel with
  | zero =>
    refine ⟨?_, ?_, ?_⟩
    · intro s v rest h
      exact absurd h (by rw [show pValue 0 s = none from rfl]; simp)
    · intro s acc v rest h
      exact absurd h (by rw [show pElems 0 s acc = none from rfl]; simp)
    · intro s acc v rest h
      exact absurd h (by rw [show pMembers 0 s acc = none from rfl]; simp)
  | succ n ih =>
    obtain ⟨ihV, ihE, ihM⟩ := ih
    refine ⟨?_, ?_, ?_⟩
    · intro s v rest h
      simp only [pValue] at h
      obtain ⟨w, hw⟩ : ∃ w, s = w ++ skipWS s :=
        ⟨s.takeWhile jsonWS, (List.takeWhile_append_dropWhile _ _).symm⟩
      obtain ⟨t, ht⟩ : ∃ t, skipWS s = t := ⟨_, rfl⟩
      rw [ht] at h hw
      split at h
      · exact absurd h (by simp)
      · rename_i c r
        split_ifs at h with hc1 hc2 hc3 hc4 hc5 hc6 hc7 hc8 hc9 hc10
        · split at h
          · rename_i r1
            simp only [Option.some.injEq, Prod.mk.injEq] at h
            obtain ⟨rfl, rfl⟩ := h
            exact ⟨w ++ [c, 'u', 'l'], 'l', by rw [hw]; simp, by decide⟩
          · exact absurd h (by simp)
        · split at h
          · rename_i r1
            simp only [Option.some.injEq, Prod.mk.injEq] at h
            obtain ⟨rfl, rfl⟩ := h
            exact ⟨w ++ [c, 'r', 'u'], 'e', by rw [hw]; simp, by decide⟩
          · exact absurd h (by simp)
        · split at h
          · rename_i r1
            simp only [Option.some.injEq, Prod.mk.injEq] at h
            obtain ⟨rfl, rfl⟩ := h
            exact ⟨w ++ [c, 'a', 'l', 's'], 'e', by rw [hw]; simp, by decide⟩
          · exact absurd h (by simp)
        · split at h
          · rename_i r1
            simp only [Option.some.injEq, Prod.mk.injEq] at h
            obtain ⟨rfl, rfl⟩ := h
            exact ⟨w ++ [c, 'a'], 'N', by rw [hw]; simp, by decide⟩
          · exact absurd h (by simp)
        · split at h
          · rename_i r1
            simp only [Option.some.injEq, Prod.mk.injEq] at h
            obtain ⟨rfl, rfl⟩ := h
            exact ⟨w ++ [c, 'n', 'f', 'i', 'n', 'i', 't'], 'y', by rw [hw]; simp, by decide⟩
          · exact absurd h (by simp)
        · split at h
          · rename_i str r1 heqs
            simp only [Option.some.injEq, Prod.mk.injEq] at h
            obtain ⟨rfl, rfl⟩ := h
            obtain ⟨u2, hu2⟩ := pString_ends r.length r le_rfl str r1 heqs
            exact ⟨w ++ c :: u2, '"', by rw [hw, hu2]; simp, by decide⟩
          · exact absurd h (by simp)
        · split at h
          · rename_i r1 heq2
            simp only [Option.some.injEq, Prod.mk.injEq] at h
            obtain ⟨rfl, rfl⟩ := h
            obtain ⟨w2, hw2⟩ : ∃ w2, r = w2 ++ skipWS r :=
              ⟨r.takeWhile jsonWS, (List.takeWhile_append_dropWhile _ _).symm⟩
            rw [heq2] at hw2
            exact ⟨w ++ c :: w2, ']', by rw [hw, hw2]; simp, by decide⟩
          · obtain ⟨u2, c2, hr2, he2⟩ := ihE r [] v rest h
            exact ⟨w ++ c :: u2, c2, by rw [hw, hr2]; simp, he2⟩
        · split at h
          · rename_i r1 heq2
            simp only [Option.some.injEq, Prod.mk.injEq] at h
            obtain ⟨rfl, rfl⟩ := h
            obtain ⟨w2, hw2⟩ : ∃ w2, r = w2 ++ skipWS r :=
              ⟨r.takeWhile jsonWS, (List.takeWhile_append_dropWhile _ _).symm⟩
            rw [heq2] at hw2
            exact ⟨w ++ c :: w2, '\x7d', by rw [hw, hw2]; simp, by decide⟩
          · obtain ⟨u2, c2, hr2, he2⟩ := ihM r [] v rest h
            exact ⟨w ++ c :: u2, c2, by rw [hw, hr2]; simp, he2⟩
        · split at h
          · rename_i r1
            simp only [Option.some.injEq, Prod.mk.injEq] at h
            obtain ⟨rfl, rfl⟩ := h
            exact ⟨w ++ [c, 'I', 'n', 'f', 'i', 'n', 'i', 't'], 'y', by rw [hw]; simp, by decide⟩
          · split at h
            · rename_i lex r1 heqn
              simp only [Option.some.injEq, Prod.mk.injEq] at h
              obtain ⟨rfl, rfl⟩ := h
              obtain ⟨hcr, u2, d, hlex, hd⟩ := pNumber_ends (c :: r) lex r1 heqn
              refine ⟨w ++ u2, d, ?_, by simp [jsonEndChar, hd]⟩
              rw [hw, hcr, hlex]
              simp
            · exact absurd h (by simp)
        · split at h
          · rename_i lex r1 heqn
            simp only [Option.some.injEq, Prod.mk.injEq] at h
            obtain ⟨rfl, rfl⟩ := h
            obtain ⟨hcr, u2, d, hlex, hd⟩ := pNumber_ends (c :: r) lex r1 heqn
            refine ⟨w ++ u2, d, ?_, by simp [jsonEndChar, hd]⟩
            rw [hw, hcr, hlex]
            simp
          · exact absurd h (by simp)
    · intro s acc v rest h
      simp only [pElems] at h
      split at h
      · exact absurd h (by simp)
      · rename_i v1 r heqv
        obtain ⟨u1, c1, hs1, he1⟩ := ihV s v1 r heqv
        split at h
        · rename_i r2 heq2
          obtain ⟨w2, hw2⟩ : ∃ w2, r = w2 ++ skipWS r :=
            ⟨r.takeWhile jsonWS, (List.takeWhile_append_dropWhile _ _).symm⟩
          rw [heq2] at hw2
          obtain ⟨u3, c3, hr3, he3⟩ := ihE r2 (acc ++ [v1]) v rest h
          refine ⟨u1 ++ c1 :: w2 ++ ',' :: u3, c3, ?_, he3⟩
          rw [hs1, hw2, hr3]
          simp
        · rename_i r2 heq2
          simp only [Option.some.injEq, Prod.mk.injEq] at h
          obtain ⟨rfl, rfl⟩ := h
          obtain ⟨w2, hw2⟩ : ∃ w2, r = w2 ++ skipWS r :=
            ⟨r.takeWhile jsonWS, (List.takeWhile_append_dropWhile _ _).symm⟩
          rw [heq2] at hw2
          refine ⟨u1 ++ c1 :: w2, ']', ?_, by decide⟩
          rw [hs1, hw2]
          simp
        · exact absurd h (by simp)
    · intro s acc v rest h
      simp only [pMembers] at h
      obtain ⟨w, hw⟩ : ∃ w, s = w ++ skipWS s :=
        ⟨s.takeWhile jsonWS, (List.takeWhile_append_dropWhile _ _).symm⟩
      obtain ⟨t, ht⟩ : ∃ t, skipWS s = t := ⟨_, rfl⟩
      rw [ht] at h hw
      split at h
      · rename_i r
        split at h
        · exact absurd h (by simp)
        · rename_i k r1 heqs
          obtain ⟨u2, hu2⟩ := pString_ends r.length r le_rfl k r1 heqs
          split at h
          · rename_i r2 heq3
            obtain ⟨w3, hw3⟩ : ∃ w3, r1 = w3 ++ skipWS r1 :=
              ⟨r1.takeWhile jsonWS, (List.takeWhile_append_dropWhile _ _).symm⟩
            rw [heq3] at hw3
            split at h
            · exact absurd h (by simp)
            · rename_i v1 r3 heqv
              obtain ⟨u4, c4, hr4, he4⟩ := ihV r2 v1 r3 heqv
              split at h
              · rename_i r4 heq5
                obtain ⟨w5, hw5⟩ : ∃ w5, r3 = w5 ++ skipWS r3 :=
                  ⟨r3.takeWhile jsonWS, (List.takeWhile_append_dropWhile _ _).symm⟩
                rw [heq5] at hw5
                obtain ⟨u6, c6, hr6, he6⟩ := ihM r4 (dictInsert acc k v1) v rest h
                refine ⟨w ++ '"' :: u2 ++ '"' :: w3 ++ ':' :: u4 ++ c4 :: w5 ++ ',' :: u6, c6, ?_, he6⟩
                rw [hw, hu2, hw3, hr4, hw5, hr6]
                simp
              · rename_i r4 heq5
                simp only [Option.some.injEq, Prod.mk.injEq] at h
                obtain ⟨rfl, rfl⟩ := h
                obtain ⟨w5, hw5⟩ : ∃ w5, r3 = w5 ++ skipWS r3 :=
                  ⟨r3.takeWhile jsonWS, (List.takeWhile_append_dropWhile _ _).symm⟩
                rw [heq5] at hw5
                refine ⟨w ++ '"' :: u2 ++ '"' :: w3 ++ ':' :: u4 ++ c4 :: w5, '\x7d', ?_, by decide⟩
                rw [hw, hu2, hw3, hr4, hw5]
                simp
              · exact absurd h (by simp)
          · exact absurd h (by simp)
      · exact absurd h (by simp)

theorem pValue_backtick (fuel : Nat) (t : Str) : pValue fuel ('\x60' :: t) = none := by
  cases fuel with
  | zero => rfl
  | succ n => rfl

theorem json_loads_shape (u : Str) (v : Json) (h : json_loads u = some v) :
    ∃ w c rest, u = w ++ c :: rest ∧ jsonEndChar c = true ∧ ∀ a ∈ rest, jsonWS a = true := by
  unfold json_loads at h
  split at h
  · rename_i v2 rest2 heqp
    split_ifs at h with hws
    obtain ⟨w, c, hu, hc⟩ := (parser_ends (2 * u.length + 4)).1 u v2 rest2 heqp
    refine ⟨w, c, rest2, hu, hc, ?_⟩
    exact List.dropWhile_eq_nil_iff.mp (by simpa [skipWS] using hws)
  · exact absurd h (by simp)

theorem pyStrip_no_trailing (p : Str) (a : Char) (h : (pyStrip p).getLast? = some a) :
    pyIsSpace a = false := by
  have e : pyStrip p = (List.dropWhile pyIsSpace (stripLeft p).reverse).reverse := rfl
  rw [e, List.getLast?_reverse] at h
  have hh := List.head?_dropWhile_not pyIsSpace (stripLeft p).reverse
  rw [h] at hh
  simpa using hh

theorem jsonWS_pyIsSpace (a : Char) (h : jsonWS a = true) : pyIsSpace a = true := by
  simp only [jsonWS, Bool.or_eq_true, decide_eq_true_eq] at h
  rcases h with ((rfl | rfl) | rfl) | rfl <;> decide

theorem valid_json_no_open_fence (p : Str) (v : Json)
    (h : json_loads (pyStrip p) = some v) :
    List.isPrefixOf fenceOpen (pyStrip p) = false := by
  cases hfo : List.isPrefixOf fenceOpen (pyStrip p) with
  | false => rfl
  | true =>
    exfalso
    have hpre : fenceOpen <+: pyStrip p := List.isPrefixOf_iff_prefix.mp hfo
    obtain ⟨x, hx⟩ := hpre
    have hshape : pyStrip p = '\x60' :: ("\x60\x60json".toList ++ x) := by
      rw [← hx]
      rfl
    rw [hshape] at h
    simp [json_loads, pValue_backtick] at h

theorem valid_json_no_close_fence (p : Str) (v : Json)
    (h : json_loads (pyStrip p) = some v) :
    List.isSuffixOf fenceClose (pyStrip p) = false := by
  cases hfc : List.isSuffixOf fenceClose (pyStrip p) with
  | false => rfl
  | true =>
    exfalso
    have hsuf : fenceClose <:+ pyStrip p := List.isSuffixOf_iff_suffix.mp hfc
    obtain ⟨x, hx⟩ := hsuf
    obtain ⟨w, c, rest, hu, hc, hwsall⟩ := json_loads_shape (pyStrip p) v h
    cases rest with
    | cons a rest2 =>
      have hlast : (pyStrip p).getLast? = some ((a :: rest2).getLast (by simp)) := by
        rw [hu, List.getLast?_append_cons, List.getLast?_cons_cons]
        exact List.getLast?_eq_getLast_of_ne_nil (by simp)
      have hwsL : jsonWS ((a :: rest2).getLast (by simp)) = true :=
        hwsall _ (List.getLast_mem _)
      have hns := pyStrip_no_trailing p _ hlast
      have hps := jsonWS_pyIsSpace _ hwsL
      rw [hns] at hps
      exact absurd hps (by simp)
    | nil =>
      have h1 : (pyStrip p).getLast? = some c := by
        rw [hu]
        exact List.getLast?_concat _
      have h2 : (pyStrip p).getLast? = some '\x60' := by
        rw [← hx]
        have e : x ++ fenceClose = (x ++ "\x60\x60".toList) ++ ['\x60'] := by
          rw [show fenceClose = "\x60\x60".toList ++ ['\x60'] from rfl]
          simp [List.append_assoc]
        rw [e]
        exact List.getLast?_concat _
      rw [h1] at h2
      injection h2 with h3
      rw [h3] at hc
      exact absurd hc (by decide)

/-- Claim C3: a model response consisting of a structured payload
wrapped in the leading 7-character fence token and the trailing
3-character fence token parses, through the post-processing of
`analyze_document`, to the same record as the unwrapped payload.
The payload is structured: its trimmed content decodes as JSON. -/
theorem fence_wrapped_roundtrip (p : Str) (text : Str) (v : Json)
    (hv : json_loads (pyStrip p) = some v) :
    analyze_document (.ok (fenceOpen ++ p ++ fenceClose)) text =
      analyze_document (.ok p) text := by
  have h1 := valid_json_no_open_fence p v hv
  have h2 := valid_json_no_close_fence p v hv
  have h := postprocess_wrap p h1 h2
  simp only [analyze_document, h]

/-- Witness for C3 at the concrete payload ` {"имя": "Иван"} `. -/
theorem fence_wrapped_roundtrip_witness :
    json_loads (pyStrip (" \x7b\"имя\": \"Иван\"\x7d ".toList)) =
      some (.obj [("имя".toList, .str ("Иван".toList))]) ∧
    analyze_document (.ok (fenceOpen ++ " \x7b\"имя\": \"Иван\"\x7d ".toList ++ fenceClose)) [] =
      analyze_document (.ok (" \x7b\"имя\": \"Иван\"\x7d ".toList)) [] :=
  ⟨rfl,
   fence_wrapped_roundtrip (" \x7b\"имя\": \"Иван\"\x7d ".toList) []
     (.obj [("имя".toList, .str ("Иван".toList))]) rfl⟩

theorem ok_bind {α β ε : Type} (a : α) (f : α → Except ε β) :
    (Except.ok a : Except ε α) >>= f = f a := rfl

theorem error_bind {α β ε : Type} (e : ε) (f : α → Except ε β) :
    (Except.error e : Except ε α) >>= f = Except.error e := rfl

theorem ok_pure {α ε : Type} (a : α) : (pure a : Except ε α) = Except.ok a := rfl

theorem dictFind_append (l1 l2 : List (Str × Json)) (k : Str) :
    dictFind (l1 ++ l2) k =
      match dictFind l1 k with
      | some v => some v
      | none => dictFind l2 k := by
  induction l1 with
  | nil => simp [dictFind]
  | cons a rest ih =>
    obtain ⟨k', v'⟩ := a
    by_cases h : k' = k
    · simp [dictFind, h]
    · simp [dictFind, h, ih]

theorem dictFind_optEntry (k' : Str) (v : Option Str) (k : Str) :
    dictFind (optEntry k' v) k = if k' = k then v.map Json.str else none := by
  cases v with
  | none => simp [optEntry, dictFind]
  | some s => simp [optEntry, dictFind]

theorem find_file (r : AnalysisRecord) :
    dictFind (recordEntries r) keyFile = r.fileName.map Json.str := by
  cases hv : r.fileName with
  | some s =>
    simp [recordEntries, dictFind_append, dictFind_optEntry, hv]
  | none =>
    by_cases hf : (factsEntries r).isEmpty <;>
      simp [recordEntries, dictFind_append, dictFind_optEntry, dictFind, hv, hf,
        show keyType ≠ keyFile from by decide, show keyName ≠ keyFile from by decide,
        show keyFacts ≠ keyFile from by decide, show keySummary ≠ keyFile from by decide]

theorem find_type (r : AnalysisRecord) :
    dictFind (recordEntries r) keyType = r.documentType.map Json.str := by
  cases hv : r.documentType with
  | some s =>
    simp [recordEntries, dictFind_append, dictFind_optEntry, hv,
      show keyFile ≠ keyType from by decide]
  | none =>
    by_cases hf : (factsEntries r).isEmpty <;>
      simp [recordEntries, dictFind_append, dictFind_optEntry, dictFind, hv, hf,
        show keyFile ≠ keyType from by decide, show keyName ≠ keyType from by decide,
        show keyFacts ≠ keyType from by decide, show keySummary ≠ keyType from by decide]

theorem find_name (r : AnalysisRecord) :
    dictFind (recordEntries r) keyName = r.personName.map Json.str := by
  cases hv : r.personName with
  | some s =>
    simp [recordEntries, dictFind_append, dictFind_optEntry, hv,
      show keyFile ≠ keyName from by decide, show keyType ≠ keyName from by decide]
  | none =>
    by_cases hf : (factsEntries r).isEmpty <;>
      simp [recordEntries, dictFind_append, dictFind_optEntry, dictFind, hv, hf,
        show keyFile ≠ keyName from by decide, show keyType ≠ keyName from by decide,
        show keyFacts ≠ keyName from by decide, show keySummary ≠ keyName from by decide]

theorem find_summary (r : AnalysisRecord) :
    dictFind (recordEntries r) keySummary = r.summary.map Json.str := by
  cases hv : r.summary with
  | some s =>
    by_cases hf : (factsEntries r).isEmpty <;>
      simp [recordEntries, dictFind_append, dictFind_optEntry, dictFind, hv, hf,
        show keyFile ≠ keySummary from by decide, show keyType ≠ keySummary from by decide,
        show keyName ≠ keySummary from by decide, show keyFacts ≠ keySummary from by decide]
  | none =>
    by_cases hf : (factsEntries r).isEmpty <;>
      simp [recordEntries, dictFind_append, dictFind_optEntry, dictFind, hv, hf,
        show keyFile ≠ keySummary from by decide, show keyType ≠ keySummary from by decide,
        show keyName ≠ keySummary from by decide, show keyFacts ≠ keySummary from by decide]

theorem find_facts (r : AnalysisRecord) :
    dictFind (recordEntries r) keyFacts =
      (if (factsEntries r).isEmpty then none else some (.obj (factsEntries r))) := by
  by_cases hf : (factsEntries r).isEmpty <;>
    simp [recordEntries, dictFind_append, dictFind_optEntry, dictFind, hf,
      show keyFile ≠ keyFacts from by decide, show keyType ≠ keyFacts from by decide,
      show keyName ≠ keyFacts from by decide, show keySummary ≠ keyFacts from by decide]

theorem ffind_role (r : AnalysisRecord) :
    dictFind (factsEntries r) keyRole = r.role.map Json.str := by
  cases hv : r.role <;>
    simp [factsEntries, dictFind_append, dictFind_optEntry, hv,
      show keyCity ≠ keyRole from by decide, show keyDate ≠ keyRole from by decide,
      show keyOrg ≠ keyRole from by decide]

theorem ffind_city (r : AnalysisRecord) :
    dictFind (factsEntries r) keyCity = r.city.map Json.str := by
  cases hv : r.city <;>
    simp [factsEntries, dictFind_append, dictFind_optEntry, hv,
      show keyRole ≠ keyCity from by decide, show keyDate ≠ keyCity from by decide,
      show keyOrg ≠ keyCity from by decide]

theorem ffind_date (r : AnalysisRecord) :
    dictFind (factsEntries r) keyDate = r.date.map Json.str := by
  cases hv : r.date <;>
    simp [factsEntries, dictFind_append, dictFind_optEntry, hv,
      show keyRole ≠ keyDate from by decide, show keyCity ≠ keyDate from by decide,
      show keyOrg ≠ keyDate from by decide]

theorem ffind_org (r : AnalysisRecord) :
    dictFind (factsEntries r) keyOrg = r.organization.map Json.str := by
  cases hv : r.organization <;>
    simp [factsEntries, dictFind_append, dictFind_optEntry, hv,
      show keyRole ≠ keyOrg from by decide, show keyCity ≠ keyOrg from by decide,
      show keyDate ≠ keyOrg from by decide]

theorem get_facts (r : AnalysisRecord) :
    pyGet (recordToJson r) keyFacts (.obj []) = .ok (.obj (factsEntries r)) := by
  simp only [recordToJson, pyGet]
  rw [find_facts]
  by_cases hf : (factsEntries r).isEmpty
  · simp [hf, List.isEmpty_iff.mp hf]
  · simp [hf]

theorem get_file (r : AnalysisRecord) (d : Json) :
    pyGet (recordToJson r) keyFile d = .ok ((r.fileName.map Json.str).getD d) := by
  simp only [recordToJson, pyGet]
  rw [find_file]

theorem get_type (r : AnalysisRecord) (d : Json) :
    pyGet (recordToJson r) keyType d = .ok ((r.documentType.map Json.str).getD d) := by
  simp only [recordToJson, pyGet]
  rw [find_type]

theorem get_name (r : AnalysisRecord) (d : Json) :
    pyGet (recordToJson r) keyName d = .ok ((r.personName.map Json.str).getD d) := by
  simp only [recordToJson, pyGet]
  rw [find_name]

theorem get_summary (r : AnalysisRecord) (d : Json) :
    pyGet (recordToJson r) keySummary d = .ok ((r.summary.map Json.str).getD d) := by
  simp only [recordToJson, pyGet]
  rw [find_summary]

theorem get_fact_role (r : AnalysisRecord) (d : Json) :
    pyGet (.obj (factsEntries r)) keyRole d = .ok ((r.role.map Json.str).getD d) := by
  simp only [pyGet]
  rw [ffind_role]

theorem get_fact_city (r : AnalysisRecord) (d : Json) :
    pyGet (.obj (factsEntries r)) keyCity d = .ok ((r.city.map Json.str).getD d) := by
  simp only [pyGet]
  rw [ffind_city]

theorem get_fact_date (r : AnalysisRecord) (d : Json) :
    pyGet (.obj (factsEntries r)) keyDate d = .ok ((r.date.map Json.str).getD d) := by
  simp only [pyGet]
  rw [ffind_date]

theorem get_fact_org (r : AnalysisRecord) (d : Json) :
    pyGet (.obj (factsEntries r)) keyOrg d = .ok ((r.organization.map Json.str).getD d) := by
  simp only [pyGet]
  rw [ffind_org]

theorem map_getD_empty (o : Option Str) :
    (o.map Json.str).getD emptyJ = Json.str (o.getD []) := by
  cases o <;> simp [emptyJ]

/-- Claim C2: for every analysis record, including records missing any
subset of fields, the row built by `write_to_sheet` has exactly 8 string
cells in the fixed order [fileName, documentType, personName, role,
city, date, organization, summary], with every missing field rendered as
the empty string at its fixed position (the row equals the spec-side
projection `specProjectRow`). -/
theorem row_projection_matches_spec (r : AnalysisRecord) :
    sheetRow (recordToJson r) = .ok ((specProjectRow r).map Json.str) ∧
    (specProjectRow r).length = 8 := by
  refine ⟨?_, rfl⟩
  simp only [sheetRow, get_facts, get_file, get_type, get_name, get_summary,
    get_fact_role, get_fact_city, get_fact_date, get_fact_org, ok_bind, ok_pure,
    map_getD_empty]
  simp [specProjectRow]

/-- Display rendering of an optional field with the dash default. -/
theorem pyStr_opt (o : Option Str) :
    pyStr ((o.map Json.str).getD dashJ) = specDisplay o := by
  cases o <;> simp [pyStr, dashJ, specDisplay]

theorem infix_mkSummary (t n rr c d o su : Str) :
    t <:+: mkSummary t n rr c d o su ∧ n <:+: mkSummary t n rr c d o su ∧
    rr <:+: mkSummary t n rr c d o su ∧ c <:+: mkSummary t n rr c d o su ∧
    d <:+: mkSummary t n rr c d o su ∧ o <:+: mkSummary t n rr c d o su ∧
    su <:+: mkSummary t n rr c d o su := by
  refine ⟨?_, ?_, ?_, ?_, ?_, ?_, ?_⟩
  · have h : mkSummary t n rr c d o su =
        "✅ **Тип**: ".toList ++ t ++
        ("\n👤 **Имя**: ".toList ++ n ++ "\n💼 **Должность**: ".toList ++ rr ++
         "\n🏙️ **Город**: ".toList ++ c ++ "\n📅 **Дата**: ".toList ++ d ++
         "\n🏢 **Организация**: ".toList ++ o ++ "\n\n📝 **Резюме**: ".toList ++ su) := by
      simp [mkSummary, List.append_assoc]
    rw [h]; exact List.infix_append _ _ _
  · have h : mkSummary t n rr c d o su =
        ("✅ **Тип**: ".toList ++ t ++ "\n👤 **Имя**: ".toList) ++ n ++
        ("\n💼 **Должность**: ".toList ++ rr ++
         "\n🏙️ **Город**: ".toList ++ c ++ "\n📅 **Дата**: ".toList ++ d ++
         "\n🏢 **Организация**: ".toList ++ o ++ "\n\n📝 **Резюме**: ".toList ++ su) := by
      simp [mkSummary, List.append_assoc]
    rw [h]; exact List.infix_append _ _ _
  · have h : mkSummary t n rr c d o su =
        ("✅ **Тип**: ".toList ++ t ++ "\n👤 **Имя**: ".toList ++ n ++
         "\n💼 **Должность**: ".toList) ++ rr ++
        ("\n🏙️ **Город**: ".toList ++ c ++ "\n📅 **Дата**: ".toList ++ d ++
         "\n🏢 **Организация**: ".toList ++ o ++ "\n\n📝 **Резюме**: ".toList ++ su) := by
      simp [mkSummary, List.append_assoc]
    rw [h]; exact List.infix_append _ _ _
  · have h : mkSummary t n rr c d o su =
        ("✅ **Тип**: ".toList ++ t ++ "\n👤 **Имя**: ".toList ++ n ++
         "\n💼 **Должность**: ".toList ++ rr ++ "\n🏙️ **Город**: ".toList) ++ c ++
        ("\n📅 **Дата**: ".toList ++ d ++
         "\n🏢 **Организация**: ".toList ++ o ++ "\n\n📝 **Резюме**: ".toList ++ su) := by
      simp [mkSummary, List.append_assoc]
    rw [h]; exact List.infix_append _ _ _
  · have h : mkSummary t n rr c d o su =
        ("✅ **Тип**: ".toList ++ t ++ "\n👤 **Имя**: ".toList ++ n ++
         "\n💼 **Должность**: ".toList ++ rr ++ "\n🏙️ **Город**: ".toList ++ c ++
         "\n📅 **Дата**: ".toList) ++ d ++
        ("\n🏢 **Организация**: ".toList ++ o ++ "\n\n📝 **Резюме**: ".toList ++ su) := by
      simp [mkSummary, List.append_assoc]
    rw [h]; exact List.infix_append _ _ _
  · have h : mkSummary t n rr c d o su =
        ("✅ **Тип**: ".toList ++ t ++ "\n👤 **Имя**: ".toList ++ n ++
         "\n💼 **Должность**: ".toList ++ rr ++ "\n🏙️ **Город**: ".toList ++ c ++
         "\n📅 **Дата**: ".toList ++ d ++ "\n🏢 **Организация**: ".toList) ++ o ++
        ("\n\n📝 **Резюме**: ".toList ++ su) := by
      simp [mkSummary, List.append_assoc]
    rw [h]; exact List.infix_append _ _ _
  · have h : mkSummary t n rr c d o su =
        ("✅ **Тип**: ".toList ++ t ++ "\n👤 **Имя**: ".toList ++ n ++
         "\n💼 **Должность**: ".toList ++ rr ++ "\n🏙️ **Город**: ".toList ++ c ++
         "\n📅 **Дата**: ".toList ++ d ++ "\n🏢 **Организация**: ".toList ++ o ++
         "\n\n📝 **Резюме**: ".toList) ++ su ++ ([] : Str) := by
      simp [mkSummary, List.append_assoc]
    rw [h]; exact List.infix_append _ _ _

/-- Claim C8: for every analysis record, the human-readable summary
message contains the placeholder dash for every absent field and the
literal value for every present field (the message equals the spec-side
layout `specSummary`, and each of the seven displayed values occurs in
it verbatim). -/
theorem format_matches_spec (r : AnalysisRecord) :
    formatResponse (recordToJson r) = .ok (specSummary r) ∧
    specDisplay r.documentType <:+: specSummary r ∧
    specDisplay r.personName <:+: specSummary r ∧
    specDisplay r.role <:+: specSummary r ∧
    specDisplay r.city <:+: specSummary r ∧
    specDisplay r.date <:+: specSummary r ∧
    specDisplay r.organization <:+: specSummary r ∧
    specDisplay r.summary <:+: specSummary r := by
  have hfmt : formatResponse (recordToJson r) = .ok (specSummary r) := by
    simp only [formatResponse, get_type, get_name, get_facts, get_fact_role,
      get_fact_city, get_fact_date, get_fact_org, get_summary, ok_bind, ok_pure,
      pyStr_opt, specSummary]
  obtain ⟨i1, i2, i3, i4, i5, i6, i7⟩ :=
    infix_mkSummary (specDisplay r.documentType) (specDisplay r.personName)
      (specDisplay r.role) (specDisplay r.city) (specDisplay r.date)
      (specDisplay r.organization) (specDisplay r.summary)
  exact ⟨hfmt, i1, i2, i3, i4, i5, i6, i7⟩

theorem formatResponse_ok_obj (result : Json) (m : Str)
    (h : formatResponse result = .ok m) : ∃ kvs, result = .obj kvs := by
  cases result with
  | obj kvs => exact ⟨kvs, rfl⟩
  | null =>
    have he : formatResponse Json.null = Except.error ("AttributeError".toList) := rfl
    rw [he] at h
    exact absurd h (by simp)
  | bool b =>
    have he : formatResponse (Json.bool b) = Except.error ("AttributeError".toList) := rfl
    rw [he] at h
    exact absurd h (by simp)
  | num l =>
    have he : formatResponse (Json.num l) = Except.error ("AttributeError".toList) := rfl
    rw [he] at h
    exact absurd h (by simp)
  | str s =>
    have he : formatResponse (Json.str s) = Except.error ("AttributeError".toList) := rfl
    rw [he] at h
    exact absurd h (by simp)
  | arr xs =>
    have he : formatResponse (Json.arr xs) = Except.error ("AttributeError".toList) := rfl
    rw [he] at h
    exact absurd h (by simp)

theorem formatResponse_ok_facts (kvs : List (Str × Json)) (m : Str)
    (h : formatResponse (.obj kvs) = .ok m) :
    dictFind kvs keyFacts = none ∨ ∃ fkvs, dictFind kvs keyFacts = some (.obj fkvs) := by
  cases hf : dictFind kvs keyFacts with
  | none => exact .inl rfl
  | some v =>
    cases v with
    | obj fkvs => exact .inr ⟨fkvs, rfl⟩
    | null =>
      simp only [formatResponse, pyGet, ok_bind, error_bind, hf, Option.getD_some] at h
      exact absurd h (by simp)
    | bool b =>
      simp only [formatResponse, pyGet, ok_bind, error_bind, hf, Option.getD_some] at h
      exact absurd h (by simp)
    | num l =>
      simp only [formatResponse, pyGet, ok_bind, error_bind, hf, Option.getD_some] at h
      exact absurd h (by simp)
    | str s =>
      simp only [formatResponse, pyGet, ok_bind, error_bind, hf, Option.getD_some] at h
      exact absurd h (by simp)
    | arr xs =>
      simp only [formatResponse, pyGet, ok_bind, error_bind, hf, Option.getD_some] at h
      exact absurd h (by simp)

theorem formatResponse_ok_mkSummary (result : Json) (m : Str)
    (h : formatResponse result = .ok m) :
    ∃ t n rr c d o su, m = mkSummary t n rr c d o su := by
  obtain ⟨kvs, rfl⟩ := formatResponse_ok_obj result m h
  rcases formatResponse_ok_facts kvs m h with hf | ⟨fkvs, hf⟩ <;>
  · simp only [formatResponse, pyGet, ok_bind, ok_pure, hf, Option.getD_some,
      Option.getD_none, dictFind, Except.ok.injEq] at h
    exact ⟨_, _, _, _, _, _, _, h.symm⟩

theorem mkSummary_head (t n rr c d o su : Str) :
    (mkSummary t n rr c d o su).head? = some '✅' := rfl

theorem head_mismatch (s t : Str) (c1 c2 : Char) (h1 : s.head? = some c1)
    (h2 : t.head? = some c2) (hne : c1 ≠ c2) : s ≠ t := by
  intro he
  rw [he, h2] at h1
  exact hne (by injection h1 with h3; exact h3.symm)

theorem dictFind_dictInsert_ne (kvs : List (Str × Json)) (k : Str) (v : Json)
    (k' : Str) (h : k ≠ k') :
    dictFind (dictInsert kvs k v) k' = dictFind kvs k' := by
  induction kvs with
  | nil => simp [dictInsert, dictFind, h]
  | cons a rest ih =>
    obtain ⟨k2, v2⟩ := a
    by_cases h2 : k2 = k
    · subst h2
      simp [dictInsert, dictFind, h]
    · simp [dictInsert, dictFind, h2, ih]

theorem sheetRow_obj_none (kvs : List (Str × Json)) (h : dictFind kvs keyFacts = none) :
    sheetRow (.obj kvs) = .ok
      [(dictFind kvs keyFile).getD emptyJ, (dictFind kvs keyType).getD emptyJ,
       (dictFind kvs keyName).getD emptyJ, emptyJ, emptyJ, emptyJ, emptyJ,
       (dictFind kvs keySummary).getD emptyJ] := by
  simp only [sheetRow, pyGet, h, ok_bind, ok_pure, Option.getD_some, Option.getD_none,
    dictFind]

theorem sheetRow_obj_some (kvs fkvs : List (Str × Json))
    (h : dictFind kvs keyFacts = some (.obj fkvs)) :
    sheetRow (.obj kvs) = .ok
      [(dictFind kvs keyFile).getD emptyJ, (dictFind kvs keyType).getD emptyJ,
       (dictFind kvs keyName).getD emptyJ, (dictFind fkvs keyRole).getD emptyJ,
       (dictFind fkvs keyCity).getD emptyJ, (dictFind fkvs keyDate).getD emptyJ,
       (dictFind fkvs keyOrg).getD emptyJ, (dictFind kvs keySummary).getD emptyJ] := by
  simp only [sheetRow, pyGet, h, ok_bind, ok_pure, Option.getD_some]

theorem write_to_sheet_shape (env : Env) (data : Json) :
    (∃ m, write_to_sheet env data = [.log m]) ∨
    (∃ row, write_to_sheet env data = [.appendRow row]) := by
  cases hg : get_google_creds env with
  | error e => exact .inl ⟨logWritePre ++ e, by simp [write_to_sheet, hg]⟩
  | ok u =>
    cases hr : sheetRow data with
    | error e => exact .inl ⟨logWritePre ++ e, by simp [write_to_sheet, hg, hr]⟩
    | ok row =>
      cases hap : env.appendResult with
      | error e => exact .inl ⟨logWritePre ++ e, by simp [write_to_sheet, hg, hr, hap]⟩
      | ok u2 => exact .inr ⟨row, by simp [write_to_sheet, hg, hr, hap]⟩

/-- Claim C7: when the attachment's declared content type is not
`application/pdf`, the user receives the rejection message and the
handler performs no download, no temporary file creation, no extraction
and no model invocation. -/
theorem non_pdf_rejected (env : Env) (doc : DocMsg) (hm : doc.mimeType ≠ pdfMime) :
    handle_document env doc = [.reply msgReject] ∧
    Ev.download ∉ handle_document env doc ∧
    Ev.tmpCreate ∉ handle_document env doc ∧
    Ev.extract ∉ handle_document env doc ∧
    Ev.llm ∉ handle_document env doc := by
  have h : handle_document env doc = [.reply msgReject] := by
    unfold handle_document
    rw [if_pos hm]
  refine ⟨h, ?_, ?_, ?_, ?_⟩ <;> rw [h] <;> simp

/-- Witness for C7 at a text/plain attachment. -/
theorem non_pdf_rejected_witness :
    handle_document envAllOk docTxt = [.reply msgReject] ∧
    Ev.download ∉ handle_document envAllOk docTxt ∧
    Ev.tmpCreate ∉ handle_document envAllOk docTxt ∧
    Ev.extract ∉ handle_document envAllOk docTxt ∧
    Ev.llm ∉ handle_document envAllOk docTxt :=
  non_pdf_rejected envAllOk docTxt (by decide)

/-- Claim C1: when the model response is not valid JSON after fence
stripping and trimming, `analyze_document` fails with the parse error,
the error propagates unmodified to the handler (no retry, no defaulted
record), it is reported to the user in the single error reply, and no
row is appended to the sheet. -/
theorem parse_error_propagates (env : Env) (doc : DocMsg) (ft resp : Str)
    (hm : doc.mimeType = pdfMime) (hd : env.downloadResult = .ok ())
    (hx : env.extractResult = .ok ft) (hl : env.llmResponse = .ok resp)
    (hj : json_loads (postprocess resp) = none) :
    analyze_document (.ok resp) ft = .error jsonErrMsg ∧
    handle_document env doc =
      [.reply msgReceiving, .download, .tmpCreate, .extract, .reply msgAnalyzing,
       .llm, .reply (errReplyPre ++ jsonErrMsg), .tmpDelete] ∧
    ∀ row, Ev.appendRow row ∉ handle_document env doc := by
  have ha : analyze_document (.ok resp) ft = .error jsonErrMsg := by
    simp [analyze_document, hj]
  have htr : handle_document env doc =
      [.reply msgReceiving, .download, .tmpCreate, .extract, .reply msgAnalyzing,
       .llm, .reply (errReplyPre ++ jsonErrMsg), .tmpDelete] := by
    simp [handle_document, hm, hd, hx, hl, ha]
  refine ⟨ha, htr, ?_⟩
  intro row hrow
  rw [htr] at hrow
  simp at hrow

/-- Witness for C1: the model returns free text. -/
theorem parse_error_propagates_witness :
    analyze_document (.ok ("Вот ваш JSON: нет".toList)) ("Hello".toList) = .error jsonErrMsg ∧
    handle_document envParseFail docPdf =
      [.reply msgReceiving, .download, .tmpCreate, .extract, .reply msgAnalyzing,
       .llm, .reply (errReplyPre ++ jsonErrMsg), .tmpDelete] ∧
    ∀ row, Ev.appendRow row ∉ handle_document envParseFail docPdf :=
  parse_error_propagates envParseFail docPdf ("Hello".toList) ("Вот ваш JSON: нет".toList)
    rfl rfl rfl rfl rfl

/-- Claim C5: on every exit path after the document bytes are written to
the temporary file (extraction failure, analysis failure, formatting
failure, persistence, or success) the temporary file is deleted, exactly
once, as the last action before the handler returns. -/
theorem tmp_file_always_deleted (env : Env) (doc : DocMsg)
    (hm : doc.mimeType = pdfMime) (hd : env.downloadResult = .ok ()) :
    Ev.tmpCreate ∈ handle_document env doc ∧
    (handle_document env doc).getLast? = some Ev.tmpDelete ∧
    ((handle_document env doc).filter isTmpDelete).length = 1 := by
  cases hx : env.extractResult with
  | error e =>
    have h : handle_document env doc =
        [.reply msgReceiving, .download, .tmpCreate, .reply (errReplyPre ++ e),
         .tmpDelete] := by
      simp [handle_document, hm, hd, hx]
    rw [h]
    exact ⟨by simp, rfl, rfl⟩
  | ok ft =>
    cases hl : env.llmResponse with
    | error e =>
      have h : handle_document env doc =
          [.reply msgReceiving, .download, .tmpCreate, .extract, .reply msgAnalyzing,
           .llm, .reply (errReplyPre ++ e), .tmpDelete] := by
        simp [handle_document, hm, hd, hx, hl]
      rw [h]
      exact ⟨by simp, rfl, rfl⟩
    | ok resp =>
      cases ha : analyze_document (.ok resp) ft with
      | error e =>
        have h : handle_document env doc =
            [.reply msgReceiving, .download, .tmpCreate, .extract, .reply msgAnalyzing,
             .llm, .reply (errReplyPre ++ e), .tmpDelete] := by
          simp [handle_document, hm, hd, hx, hl, ha]
        rw [h]
        exact ⟨by simp, rfl, rfl⟩
      | ok result =>
        cases hfm : formatResponse result with
        | error e =>
          have h : handle_document env doc =
              [.reply msgReceiving, .download, .tmpCreate, .extract, .reply msgAnalyzing,
               .llm, .reply (errReplyPre ++ e), .tmpDelete] := by
            simp [handle_document, hm, hd, hx, hl, ha, hfm]
          rw [h]
          exact ⟨by simp, rfl, rfl⟩
        | ok m =>
          obtain ⟨kvs, rfl⟩ := formatResponse_ok_obj result m hfm
          have hset : pySet (Json.obj kvs) keyFile (.str doc.fileName) =
              .ok (.obj (dictInsert kvs keyFile (.str doc.fileName))) := rfl
          rcases write_to_sheet_shape env
              (.obj (dictInsert kvs keyFile (.str doc.fileName))) with ⟨lm, hw⟩ | ⟨row, hw⟩
          · have h : handle_document env doc =
                [.reply msgReceiving, .download, .tmpCreate, .extract, .reply msgAnalyzing,
                 .llm, .reply m, .log lm, .reply msgSaved, .tmpDelete] := by
              simp [handle_document, hm, hd, hx, hl, ha, hfm, hset, hw]
            rw [h]
            exact ⟨by simp, rfl, rfl⟩
          · have h : handle_document env doc =
                [.reply msgReceiving, .download, .tmpCreate, .extract, .reply msgAnalyzing,
                 .llm, .reply m, .appendRow row, .reply msgSaved, .tmpDelete] := by
              simp [handle_document, hm, hd, hx, hl, ha, hfm, hset, hw]
            rw [h]
            exact ⟨by simp, rfl, rfl⟩

/-- Witness for C5 in the all-success environment. -/
theorem tmp_file_always_deleted_witness :
    Ev.tmpCreate ∈ handle_document envAllOk docPdf ∧
    (handle_document envAllOk docPdf).getLast? = some Ev.tmpDelete ∧
    ((handle_document envAllOk docPdf).filter isTmpDelete).length = 1 :=
  tmp_file_always_deleted envAllOk docPdf rfl rfl

/-- Claim C9: once a request reaches the storage-append step, the user
receives the saved-to-spreadsheet confirmation regardless of the
credential state or the append outcome — nothing in the environment
fields touched by `write_to_sheet` is constrained here. -/
theorem saved_reply_always_sent (env : Env) (doc : DocMsg) (ft resp : Str)
    (result : Json) (m : Str)
    (hm : doc.mimeType = pdfMime) (hd : env.downloadResult = .ok ())
    (hx : env.extractResult = .ok ft) (hl : env.llmResponse = .ok resp)
    (ha : analyze_document (.ok resp) ft = .ok result)
    (hfm : formatResponse result = .ok m) :
    Ev.reply msgSaved ∈ handle_document env doc := by
  obtain ⟨kvs, rfl⟩ := formatResponse_ok_obj result m hfm
  have hset : pySet (Json.obj kvs) keyFile (.str doc.fileName) =
      .ok (.obj (dictInsert kvs keyFile (.str doc.fileName))) := rfl
  have h : handle_document env doc =
      [.reply msgReceiving, .download, .tmpCreate, .extract, .reply msgAnalyzing,
       .llm, .reply m] ++
      write_to_sheet env (.obj (dictInsert kvs keyFile (.str doc.fileName))) ++
      [.reply msgSaved, .tmpDelete] := by
    simp [handle_document, hm, hd, hx, hl, ha, hfm, hset]
  rw [h]
  simp

/-- Witness for C9 in the environment whose append call raises. -/
theorem saved_reply_always_sent_witness :
    Ev.reply msgSaved ∈ handle_document envAppendFail docPdf :=
  saved_reply_always_sent envAppendFail docPdf ("Hello".toList)
    ("\x7b\"тип\": \"письмо\", \"резюме\": \"ok\"\x7d".toList)
    (.obj [("тип".toList, .str ("письмо".toList)), ("резюме".toList, .str ("ok".toList))])
    (mkSummary ("письмо".toList) ['-'] ['-'] ['-'] ['-'] ['-'] ("ok".toList))
    rfl rfl rfl rfl rfl rfl

/-- Claim C6: when the spreadsheet append raises, the user still
receives the analysis reply, the failure is only logged, the success
confirmation is still sent, and no error reply of the form
`"❌ Ошибка: ..."` reaches the user. -/
theorem append_failure_silent (env : Env) (doc : DocMsg) (ft resp : Str)
    (result : Json) (m : Str) (b64 e : Str)
    (hm : doc.mimeType = pdfMime) (hd : env.downloadResult = .ok ())
    (hx : env.extractResult = .ok ft) (hl : env.llmResponse = .ok resp)
    (ha : analyze_document (.ok resp) ft = .ok result)
    (hfm : formatResponse result = .ok m)
    (hb : env.googleCredsB64 = some b64) (hbne : b64 ≠ [])
    (hdec : env.credsDecode = .ok ())
    (hap : env.appendResult = .error e) :
    handle_document env doc =
      [.reply msgReceiving, .download, .tmpCreate, .extract, .reply msgAnalyzing,
       .llm, .reply m, .log (logWritePre ++ e), .reply msgSaved, .tmpDelete] ∧
    ∀ e', Ev.reply (errReplyPre ++ e') ∉ handle_document env doc := by
  obtain ⟨kvs, rfl⟩ := formatResponse_ok_obj result m hfm
  have hset : pySet (Json.obj kvs) keyFile (.str doc.fileName) =
      .ok (.obj (dictInsert kvs keyFile (.str doc.fileName))) := rfl
  have hg : get_google_creds env = .ok () := by
    simp [get_google_creds, hb, hbne, hdec]
  have hf2 : dictFind (dictInsert kvs keyFile (.str doc.fileName)) keyFacts =
      dictFind kvs keyFacts := dictFind_dictInsert_ne _ _ _ _ (by decide)
  have hsr : ∃ row, sheetRow (.obj (dictInsert kvs keyFile (.str doc.fileName))) = .ok row := by
    rcases formatResponse_ok_facts kvs m hfm with hf | ⟨fkvs, hf⟩
    · exact ⟨_, sheetRow_obj_none _ (hf2.trans hf)⟩
    · exact ⟨_, sheetRow_obj_some _ _ (hf2.trans hf)⟩
  obtain ⟨row, hrow⟩ := hsr
  have hw : write_to_sheet env (.obj (dictInsert kvs keyFile (.str doc.fileName))) =
      [.log (logWritePre ++ e)] := by
    simp [write_to_sheet, hg, hrow, hap]
  have htr : handle_document env doc =
      [.reply msgReceiving, .download, .tmpCreate, .extract, .reply msgAnalyzing,
       .llm, .reply m, .log (logWritePre ++ e), .reply msgSaved, .tmpDelete] := by
    simp [handle_document, hm, hd, hx, hl, ha, hfm, hset, hw]
  refine ⟨htr, ?_⟩
  intro e' hmem
  obtain ⟨t7, n7, r7, c7, d7, o7, s7, hmk⟩ := formatResponse_ok_mkSummary _ m hfm
  rw [htr] at hmem
  simp at hmem
  have hEh : (errReplyPre ++ e').head? = some '❌' := rfl
  rcases hmem with h1 | h1 | h1 | h1
  · exact head_mismatch _ _ '❌' '📥' hEh (by rfl) (by decide) h1
  · exact head_mismatch _ _ '❌' '🧠' hEh (by rfl) (by decide) h1
  · rw [hmk] at h1
    exact head_mismatch _ _ '❌' '✅' hEh (mkSummary_head _ _ _ _ _ _ _) (by decide) h1
  · exact head_mismatch _ _ '❌' '📤' hEh (by rfl) (by decide) h1

/-- Witness for C6 at the concrete environment whose append raises. -/
theorem append_failure_silent_witness :
    handle_document envAppendFail docPdf =
      [.reply msgReceiving, .download, .tmpCreate, .extract, .reply msgAnalyzing,
       .llm, .reply (mkSummary ("письмо".toList) ['-'] ['-'] ['-'] ['-'] ['-'] ("ok".toList)),
       .log (logWritePre ++ "HttpError 500".toList), .reply msgSaved, .tmpDelete] ∧
    ∀ e', Ev.reply (errReplyPre ++ e') ∉ handle_document envAppendFail docPdf :=
  append_failure_silent envAppendFail docPdf ("Hello".toList)
    ("\x7b\"тип\": \"письмо\", \"резюме\": \"ok\"\x7d".toList)
    (.obj [("тип".toList, .str ("письмо".toList)), ("резюме".toList, .str ("ok".toList))])
    (mkSummary ("письмо".toList) ['-'] ['-'] ['-'] ['-'] ['-'] ("ok".toList))
    ("abc".toList) ("HttpError 500".toList)
    rfl rfl rfl rfl rfl rfl rfl (by decide) rfl rfl

/-- Counterexample to C4 as stated: with `GOOGLE_CREDENTIALS_B64` unset,
the missing-credential `EnvironmentError` is raised, caught and logged
during the processing of an individual request (inside
`write_to_sheet`), which the claim says never happens. -/
theorem creds_missing_raised_per_request_cex :
    Ev.log (logWritePre ++ msgCredsMissing) ∈ handle_document envNoCreds docPdf := by
  have h : handle_document envNoCreds docPdf =
      [.reply msgReceiving, .download, .tmpCreate, .extract, .reply msgAnalyzing, .llm,
       .reply (mkSummary ("письмо".toList) ['-'] ['-'] ['-'] ['-'] ['-'] ['-']),
       .log (logWritePre ++ msgCredsMissing), .reply msgSaved, .tmpDelete] := rfl
  rw [h]
  simp

/-- Amended C4: the missing storage-sink credential is detected only
per-request, inside `write_to_sheet`; the resulting `EnvironmentError`
is caught and logged there, no row is appended, and the request still
finishes with the saved confirmation (there is no startup check). -/
theorem creds_missing_logged_per_request (env : Env) (doc : DocMsg) (ft resp : Str)
    (result : Json) (m : Str)
    (hm : doc.mimeType = pdfMime) (hd : env.downloadResult = .ok ())
    (hx : env.extractResult = .ok ft) (hl : env.llmResponse = .ok resp)
    (ha : analyze_document (.ok resp) ft = .ok result)
    (hfm : formatResponse result = .ok m)
    (hb : env.googleCredsB64 = none) :
    handle_document env doc =
      [.reply msgReceiving, .download, .tmpCreate, .extract, .reply msgAnalyzing,
       .llm, .reply m, .log (logWritePre ++ msgCredsMissing), .reply msgSaved,
       .tmpDelete] ∧
    ∀ row, Ev.appendRow row ∉ handle_document env doc := by
  obtain ⟨kvs, rfl⟩ := formatResponse_ok_obj result m hfm
  have hset : pySet (Json.obj kvs) keyFile (.str doc.fileName) =
      .ok (.obj (dictInsert kvs keyFile (.str doc.fileName))) := rfl
  have hw : write_to_sheet env (.obj (dictInsert kvs keyFile (.str doc.fileName))) =
      [.log (logWritePre ++ msgCredsMissing)] := by
    simp [write_to_sheet, get_google_creds, hb]
  have htr : handle_document env doc =
      [.reply msgReceiving, .download, .tmpCreate, .extract, .reply msgAnalyzing,
       .llm, .reply m, .log (logWritePre ++ msgCredsMissing), .reply msgSaved,
       .tmpDelete] := by
    simp [handle_document, hm, hd, hx, hl, ha, hfm, hset, hw]
  refine ⟨htr, ?_⟩
  intro row hrow
  rw [htr] at hrow
  simp at hrow

/-- Witness for the amended C4 at the concrete credential-less environment. -/
theorem creds_missing_logged_per_request_witness :
    handle_document envNoCreds docPdf =
      [.reply msgReceiving, .download, .tmpCreate, .extract, .reply msgAnalyzing, .llm,
       .reply (mkSummary ("письмо".toList) ['-'] ['-'] ['-'] ['-'] ['-'] ['-']),
       .log (logWritePre ++ msgCredsMissing), .reply msgSaved, .tmpDelete] ∧
    ∀ row, Ev.appendRow row ∉ handle_document envNoCreds docPdf :=
  creds_missing_logged_per_request envNoCreds docPdf ("Hello".toList)
    ("\x7b\"тип\": \"письмо\"\x7d".toList)
    (.obj [("тип".toList, .str ("письмо".toList))])
    (mkSummary ("письмо".toList) ['-'] ['-'] ['-'] ['-'] ['-'] ['-'])
    rfl rfl rfl rfl rfl rfl rfl

/-- Claim C10: `analyze_document` performs no schema validation: it
returns exactly the decoded value whenever the cleaned text is valid
JSON — including arrays, strings, numbers and objects with arbitrary
keys — and it raises exactly when the cleaned text is not valid JSON. -/
theorem analyze_no_schema_validation :
    (∀ s v, analyze_document (.ok s) [] = .ok v ↔ json_loads (postprocess s) = some v) ∧
    analyze_document (.ok ("[1, 2]".toList)) [] = .ok (.arr [.num ['1'], .num ['2']]) ∧
    analyze_document (.ok ("\"свободный текст\"".toList)) [] =
      .ok (.str ("свободный текст".toList)) ∧
    analyze_document (.ok ("42".toList)) [] = .ok (.num ['4', '2']) ∧
    analyze_document (.ok ("\x7b\"неожиданно\": null\x7d".toList)) [] =
      .ok (.obj [("неожиданно".toList, .null)]) ∧
    (∀ s, analyze_document (.ok s) [] = .error jsonErrMsg ↔
      json_loads (postprocess s) = none) := by
  refine ⟨?_, rfl, rfl, rfl, rfl, ?_⟩
  · intro s v
    cases h : json_loads (postprocess s) with
    | none => simp [analyze_document, h]
    | some w => simp [analyze_document, h]
  · intro s
    cases h : json_loads (postprocess s) with
    | none => simp [analyze_document, h]
    | some w => simp [analyze_document, h]

end Bot
